import Mathlib

/-!
# Verification of the transformer encoder in `us/02-Wed/transformer.py`

Shallow embedding over the reals of the forward-pass pipeline:
token embedding with `sqrt(d_model)` scaling, sinusoidal positional
encoding, layer normalization, multi-head scaled dot-product attention,
the position-wise feed-forward block, the pre-norm residual wrapper,
and the encoder stack.  Tensors are embedded as functions from `Fin`
index tuples to `ℝ`; fallible operations return `Except String`.
All forward functions model inference mode: dropout is the identity,
exactly as `nn.Dropout` behaves with the module in eval mode / rate 0,
which is the regime every quantitative claim restricts itself to.
-/

noncomputable section

open Real

namespace Transformer

/-! ## LayerNormalization (source lines 49-59)

`forward` computes `mean = x.mean(dim=-1)`, `std = x.std(dim=-1)` and
returns `alpha * (x - mean) / (std + eps) + bias`.  `torch.Tensor.std`
uses Bessel's correction by default: it divides the sum of squared
deviations by `n - 1`, not by `n`. -/

/-- Mean of a vector over its (last) axis, as `x.mean(dim=-1)` computes it. -/
def meanLast (n : ℕ) (x : Fin n → ℝ) : ℝ := (∑ j, x j) / n

/-- The sample variance `x.var(dim=-1)` that `torch.Tensor.std` takes the
square root of: sum of squared deviations divided by `n - 1`
(Bessel's correction, torch's default `correction=1`). -/
def varLast (n : ℕ) (x : Fin n → ℝ) : ℝ :=
  (∑ j, (x j - meanLast n x) ^ 2) / ((n : ℝ) - 1)

/-- `x.std(dim=-1)`: square root of the Bessel-corrected sample variance. -/
def stdLast (n : ℕ) (x : Fin n → ℝ) : ℝ := Real.sqrt (varLast n x)

/-- Learned parameters of `LayerNormalization`: a scalar `alpha`
(initialised `torch.ones(1)`), a scalar `bias` (`torch.zeros(1)`), and
the constructor's `eps` (default `10**-6`). -/
structure LayerNormParams where
  eps : ℝ
  alpha : ℝ
  bias : ℝ

/-- The default `eps = 10**-6` of `LayerNormalization.__init__`. -/
def lnEps : ℝ := 1e-6

/-- `LayerNormalization.forward` on one token's feature vector:
`alpha * (x - mean) / (std + eps) + bias`. -/
def layerNormForward (p : LayerNormParams) (n : ℕ) (x : Fin n → ℝ) : Fin n → ℝ :=
  fun j => p.alpha * (x j - meanLast n x) / (stdLast n x + p.eps) + p.bias

/-- The biased standard deviation (divide by `n`), which is what the spec's
words "(biased) standard deviation" denote.  Kept separate from `stdLast`
so the two formulations can be compared. -/
def stdBiasedSpec (n : ℕ) (x : Fin n → ℝ) : ℝ :=
  Real.sqrt ((∑ j, (x j - meanLast n x) ^ 2) / (n : ℝ))

/-- LayerNorm as the spec's words state it: the same formula but with the
biased standard deviation. -/
def layerNormSpecForward (p : LayerNormParams) (n : ℕ) (x : Fin n → ℝ) : Fin n → ℝ :=
  fun j => p.alpha * (x j - meanLast n x) / (stdBiasedSpec n x + p.eps) + p.bias

/-! ## PositionalEncoding table (source lines 33-39)

`div_term[i] = exp((2*i) * (-log(10000)/d_model))`;
`pe[pos, 2*i] = sin(pos * div_term[i])`;
`pe[pos, 2*i+1] = cos(pos * div_term[i])`. -/

/-- Entry `[pos, j]` of the sinusoidal table built in
`PositionalEncoding.__init__`: feature `j` pairs with `div_term`
index `j / 2`, and even features use `sin`, odd ones `cos`. -/
def posEncTable (d : ℕ) (pos j : ℕ) : ℝ :=
  let divterm : ℝ := Real.exp ((2 * (j / 2) : ℕ) * (-(Real.log 10000) / d))
  if j % 2 = 0 then Real.sin (pos * divterm) else Real.cos (pos * divterm)

/-! ## PositionalEncoding.forward (source lines 41-43)

`x + positional_encoding[:, :x.shape[1], :]`.  The Python slice
`[:seq_len]` silently truncates to `min seq_len max_seq_len` rows; the
subsequent element-wise addition then broadcasts, which succeeds exactly
when the sliced length equals `seq_len` or equals `1`, and raises a
runtime shape error otherwise.  Dropout is the identity (eval mode). -/

/-- Whether adding the sliced table `[1, min S maxLen, d]` to the input
`[B, S, d]` broadcasts (the torch broadcasting rule on the middle axis). -/
def peBroadcastOk (maxLen S : ℕ) : Prop := min S maxLen = S ∨ min S maxLen = 1

instance (maxLen S : ℕ) : Decidable (peBroadcastOk maxLen S) := by
  unfold peBroadcastOk; infer_instance

/-- `PositionalEncoding.forward` in eval mode: add the first
`min S maxLen` table rows to the input, broadcasting a length-1 slice
over every position; fail as torch's addition does when the shapes do
not broadcast. -/
def peForward (d maxLen B S : ℕ) (x : Fin B → Fin S → Fin d → ℝ) :
    Except String (Fin B → Fin S → Fin d → ℝ) :=
  if peBroadcastOk maxLen S then
    Except.ok (fun b p j =>
      x b p j + posEncTable d (if min S maxLen = 1 then 0 else (p : ℕ)) j)
  else
    Except.error "RuntimeError: the size of tensor a must match the size of tensor b"

/-! ## MultiHeadAttentionBlock.__init__ (source lines 80-90)

The explicit validation the constructor performs is
`assert d_model % h == 0` (line 84); Python raises `ZeroDivisionError`
when `h == 0` is used as the modulus.  After the assert, the four
`nn.Linear(d_model, d_model)` calls (lines 86-89) raise torch's
`RuntimeError` for a *negative* `d_model` (torch refuses tensors with a
negative dimension), while a zero `d_model` constructs legal empty
layers.  No check in the repository rejects non-positive dimensions as
such. -/

/-- What happens when a `MultiHeadAttentionBlock` is constructed: the
line-84 assert (with Python's `ZeroDivisionError` for `h = 0`), then the
`nn.Linear` constructions, which reject a negative `d_model`. -/
def mhaInit (d_model h : ℤ) : Except String Unit :=
  if h = 0 then Except.error "ZeroDivisionError: integer modulo by zero"
  else if d_model % h = 0 then
    (if d_model < 0 then
      Except.error "RuntimeError: Trying to create tensor with negative dimension"
    else Except.ok ())
  else Except.error "AssertionError: d_model is not divisible by h"

/-! ## MultiHeadAttentionBlock.attention (source lines 92-100)

Operates on head-split tensors `[B, H, S, d_k]`.  Scores are
`Q Kᵗ / sqrt d_k`; with a mask, entries where the mask is zero are
replaced by `-1e9` before the softmax over key positions.  With dropout
disabled the weights multiply the values directly. -/

/-- Raw scaled dot-product scores `QKᵗ / sqrt d_k`. -/
def rawScores (B H sq sk dk : ℕ) (Q : Fin B → Fin H → Fin sq → Fin dk → ℝ)
    (K : Fin B → Fin H → Fin sk → Fin dk → ℝ) :
    Fin B → Fin H → Fin sq → Fin sk → ℝ :=
  fun b h i j => (∑ k, Q b h i k * K b h j k) / Real.sqrt (dk : ℝ)

/-- `masked_fill(mask == 0, -1e9)`: with a mask, scores at zero-mask
positions become `-1e9`; without a mask the scores pass through.  The
mask is embedded already broadcast over batch and head. -/
def maskedScores (B H sq sk : ℕ) (mask : Option (Fin sq → Fin sk → ℝ))
    (s : Fin B → Fin H → Fin sq → Fin sk → ℝ) :
    Fin B → Fin H → Fin sq → Fin sk → ℝ :=
  match mask with
  | none => s
  | some m => fun b h i j => if m i j = 0 then -1e9 else s b h i j

/-- Softmax over the last axis: `exp s j / Σ exp s`. -/
def softmaxRow (n : ℕ) (s : Fin n → ℝ) : Fin n → ℝ :=
  fun j => Real.exp (s j) / ∑ j', Real.exp (s j')

/-- The attention-weight tensor of `MultiHeadAttentionBlock.attention`
(after masking and softmax, dropout disabled). -/
def attnWeights (B H sq sk dk : ℕ) (Q : Fin B → Fin H → Fin sq → Fin dk → ℝ)
    (K : Fin B → Fin H → Fin sk → Fin dk → ℝ)
    (mask : Option (Fin sq → Fin sk → ℝ)) :
    Fin B → Fin H → Fin sq → Fin sk → ℝ :=
  fun b h i => softmaxRow sk (maskedScores B H sq sk mask (rawScores B H sq sk dk Q K) b h i)

/-- `MultiHeadAttentionBlock.attention` with dropout disabled:
`softmax(mask(QKᵗ/√d_k)) @ V`. -/
def attention (B H sq sk dk : ℕ) (Q : Fin B → Fin H → Fin sq → Fin dk → ℝ)
    (K V : Fin B → Fin H → Fin sk → Fin dk → ℝ)
    (mask : Option (Fin sq → Fin sk → ℝ)) :
    Fin B → Fin H → Fin sq → Fin dk → ℝ :=
  fun b h i k => ∑ j, attnWeights B H sq sk dk Q K mask b h i j * V b h j k

/-! ## Linear layers, feed-forward, residual -/

/-- `nn.Linear` applied position-wise to a `[B, S, din]` tensor:
`y = x W + bias`. -/
def linear3 (B S din dout : ℕ) (W : Fin din → Fin dout → ℝ) (bias : Fin dout → ℝ)
    (x : Fin B → Fin S → Fin din → ℝ) : Fin B → Fin S → Fin dout → ℝ :=
  fun b p o => (∑ i, x b p i * W i o) + bias o

/-- Weights of a `FeedForwardBlock`: `linear_1 : d → dff`,
`linear_2 : dff → d`. -/
structure FFWeights (d dff : ℕ) where
  w1 : Fin d → Fin dff → ℝ
  b1 : Fin dff → ℝ
  w2 : Fin dff → Fin d → ℝ
  b2 : Fin d → ℝ

/-- `FeedForwardBlock.forward` with dropout disabled:
`linear_2(relu(linear_1 x))`. -/
def ffForward (B S d dff : ℕ) (w : FFWeights d dff)
    (x : Fin B → Fin S → Fin d → ℝ) : Fin B → Fin S → Fin d → ℝ :=
  linear3 B S dff d w.w2 w.b2
    (fun b p o => max 0 (linear3 B S d dff w.w1 w.b1 x b p o))

/-- LayerNorm applied per token of a `[B, S, d]` tensor (how
`LayerNormalization` acts inside the stack). -/
def layerNorm3 (B S d : ℕ) (p : LayerNormParams)
    (x : Fin B → Fin S → Fin d → ℝ) : Fin B → Fin S → Fin d → ℝ :=
  fun b q => layerNormForward p d (x b q)

/-- `Residual.forward` with dropout disabled:
`x + sublayer(norm(x))` — pre-normalization, the un-normalized `x`
added back. -/
def residualForward (B S d : ℕ) (p : LayerNormParams)
    (x : Fin B → Fin S → Fin d → ℝ)
    (sublayer : (Fin B → Fin S → Fin d → ℝ) → (Fin B → Fin S → Fin d → ℝ)) :
    Fin B → Fin S → Fin d → ℝ :=
  fun b q j => x b q j + sublayer (layerNorm3 B S d p x) b q j

/-! ## MultiHeadAttentionBlock.forward (source lines 102-111)

Project `q,k,v`, reshape `[B, S, H*d_k] → [B, H, S, d_k]`, run
`attention`, reshape back, and apply the output projection.  The model
width is `d_model = H * d_k` (the constructor's divisibility assert). -/

/-- Weights of the four `nn.Linear(d_model, d_model)` projections of a
`MultiHeadAttentionBlock`. -/
structure MHAWeights (d : ℕ) where
  wq : Fin d → Fin d → ℝ
  bq : Fin d → ℝ
  wk : Fin d → Fin d → ℝ
  bk : Fin d → ℝ
  wv : Fin d → Fin d → ℝ
  bv : Fin d → ℝ
  wo : Fin d → Fin d → ℝ
  bo : Fin d → ℝ

/-- Feature index of head `h`, channel `k` inside the flat `d_model`
axis (the `view(B, S, H, d_k)` layout). -/
def splitIdx (H dk : ℕ) (h : Fin H) (k : Fin dk) : Fin (H * dk) :=
  ⟨h.1 * dk + k.1, by
    calc h.1 * dk + k.1 < h.1 * dk + dk := by omega
    _ = (h.1 + 1) * dk := by ring
    _ ≤ H * dk := Nat.mul_le_mul_right dk h.isLt⟩

/-- Head of a flat feature index (`transpose(1,2).reshape` inverse). -/
def headOfIdx (H dk : ℕ) (j : Fin (H * dk)) : Fin H :=
  ⟨j.1 / dk, Nat.div_lt_of_lt_mul (by rw [Nat.mul_comm dk H]; exact j.isLt)⟩

/-- Channel of a flat feature index. -/
def chanOfIdx (H dk : ℕ) (j : Fin (H * dk)) : Fin dk :=
  ⟨j.1 % dk, Nat.mod_lt _ (by
    rcases Nat.eq_zero_or_pos dk with h0 | h0
    · exact absurd j.isLt (by simp [h0])
    · exact h0)⟩

/-- `MultiHeadAttentionBlock.forward` with dropout disabled. -/
def mhaForward (B S H dk : ℕ) (w : MHAWeights (H * dk))
    (q k v : Fin B → Fin S → Fin (H * dk) → ℝ)
    (mask : Option (Fin S → Fin S → ℝ)) : Fin B → Fin S → Fin (H * dk) → ℝ :=
  let query := linear3 B S (H * dk) (H * dk) w.wq w.bq q
  let key := linear3 B S (H * dk) (H * dk) w.wk w.bk k
  let value := linear3 B S (H * dk) (H * dk) w.wv w.bv v
  let Qh := fun b h p c => query b p (splitIdx H dk h c)
  let Kh := fun b h p c => key b p (splitIdx H dk h c)
  let Vh := fun b h p c => value b p (splitIdx H dk h c)
  let x := attention B H S S dk Qh Kh Vh mask
  linear3 B S (H * dk) (H * dk) w.wo w.bo
    (fun b p j => x b (headOfIdx H dk j) p (chanOfIdx H dk j))

/-! ## EncoderBlock and Encoder (source lines 131-155) -/

/-- Weights owned by one `EncoderBlock`: its attention block, its
feed-forward block, and the `LayerNormalization` parameters of its two
`Residual` wrappers. -/
structure EncoderBlockWeights (H dk dff : ℕ) where
  attn : MHAWeights (H * dk)
  ff : FFWeights (H * dk) dff
  norm1 : LayerNormParams
  norm2 : LayerNormParams

/-- `EncoderBlock.forward`: a self-attention residual sublayer followed
by a feed-forward residual sublayer. -/
def encoderBlockForward (B S H dk dff : ℕ) (w : EncoderBlockWeights H dk dff)
    (x : Fin B → Fin S → Fin (H * dk) → ℝ)
    (mask : Option (Fin S → Fin S → ℝ)) : Fin B → Fin S → Fin (H * dk) → ℝ :=
  let x1 := residualForward B S (H * dk) w.norm1 x
    (fun y => mhaForward B S H dk w.attn y y y mask)
  residualForward B S (H * dk) w.norm2 x1 (ffForward B S (H * dk) dff w.ff)

/-- `Encoder.forward`: fold the input through every layer (the mask
threaded unchanged), then the final `LayerNormalization`. -/
def encoderForward (B S H dk dff : ℕ) (layers : List (EncoderBlockWeights H dk dff))
    (finalNorm : LayerNormParams) (x : Fin B → Fin S → Fin (H * dk) → ℝ)
    (mask : Option (Fin S → Fin S → ℝ)) : Fin B → Fin S → Fin (H * dk) → ℝ :=
  layerNorm3 B S (H * dk) finalNorm
    (layers.foldl (fun acc w => encoderBlockForward B S H dk dff w acc mask) x)

/-! ## InputEmbedding (source lines 17-24) and the full pipeline -/

/-- `InputEmbedding.forward`: row lookup scaled by `sqrt(d_model)`. -/
def embedForward (B S V d : ℕ) (table : Fin V → Fin d → ℝ)
    (ids : Fin B → Fin S → Fin V) : Fin B → Fin S → Fin d → ℝ :=
  fun b p j => table (ids b p) j * Real.sqrt (d : ℝ)

/-- All weights of the driver pipeline: embedding table, encoder layers,
final norm; `maxLen` is the positional table capacity. -/
structure PipelineWeights (V H dk dff maxLen : ℕ) where
  emb : Fin V → Fin (H * dk) → ℝ
  blocks : List (EncoderBlockWeights H dk dff)
  finalNorm : LayerNormParams

/-- The full forward pass of the driver (source lines 191-193):
embedding, positional encoding, encoder stack.  Dropout disabled
throughout. -/
def pipelineForward (B S V H dk dff maxLen : ℕ)
    (w : PipelineWeights V H dk dff maxLen)
    (ids : Fin B → Fin S → Fin V) (mask : Option (Fin S → Fin S → ℝ)) :
    Except String (Fin B → Fin S → Fin (H * dk) → ℝ) :=
  (peForward (H * dk) maxLen B S (embedForward B S V (H * dk) w.emb ids)).map
    (fun x => encoderForward B S H dk dff w.blocks w.finalNorm x mask)

/-! ## Theorems -/

/-- Claim C5, counterexample: `d_model = 0` is non-positive, yet
construction succeeds — `0 % 1 == 0` passes the assert and
`nn.Linear(0, 0)` constructs legal zero-width layers, so no
`ConfigurationError` is raised for this non-positive dimension. -/
theorem C5_counterexample : mhaInit 0 1 = Except.ok () := rfl

/-- Claim C5 (amended): construction fails exactly when `num_heads = 0`
(Python's modulo raises), or `d_model % num_heads ≠ 0` (the assert), or
`d_model < 0` (the `nn.Linear` calls reject a negative dimension); there
is no validation rejecting non-positive dimensions as such — in
particular `d_model = 0` with `num_heads = 1` constructs successfully. -/
theorem C5_mhaInit_ok_iff (d_model h : ℤ) :
    mhaInit d_model h = Except.ok () ↔ h ≠ 0 ∧ d_model % h = 0 ∧ 0 ≤ d_model := by
  unfold mhaInit
  split_ifs with h1 h2 h3
  · constructor
    · intro hc
      exact absurd hc (by simp)
    · intro hc
      exact absurd h1 hc.1
  · constructor
    · intro hc
      exact absurd hc (by simp)
    · intro hc
      exact absurd hc.2.2 (not_le.2 h3)
  · constructor
    · intro _
      exact ⟨h1, h2, not_lt.1 h3⟩
    · intro _
      rfl
  · constructor
    · intro hc
      exact absurd hc (by simp)
    · intro hc
      exact absurd hc.2.1 h2

/-- Claim C7: `Residual.forward` computes `x + Dropout(f(LayerNorm(x)))`
(dropout disabled here): the normalization is applied before the
sublayer, and the un-normalized `x` is what is added back. -/
theorem C7_residual_prenorm (B S d : ℕ) (p : LayerNormParams)
    (x : Fin B → Fin S → Fin d → ℝ)
    (f : (Fin B → Fin S → Fin d → ℝ) → (Fin B → Fin S → Fin d → ℝ))
    (b : Fin B) (q : Fin S) (j : Fin d) :
    residualForward B S d p x f b q j = x b q j + f (layerNorm3 B S d p x) b q j :=
  rfl

/-- Claim C8: with dropout disabled and fixed weights, the full pipeline
(embedding, positional encoding, encoder stack) is a pure function of
the token ids and the mask: identical inputs give identical outputs. -/
theorem C8_pipeline_deterministic (B S V H dk dff maxLen : ℕ)
    (w : PipelineWeights V H dk dff maxLen)
    (ids1 ids2 : Fin B → Fin S → Fin V) (m1 m2 : Option (Fin S → Fin S → ℝ))
    (hi : ids1 = ids2) (hm : m1 = m2) :
    pipelineForward B S V H dk dff maxLen w ids1 m1
      = pipelineForward B S V H dk dff maxLen w ids2 m2 := by
  rw [hi, hm]

/-- Witness for C8 at a concrete one-layer-free configuration. -/
theorem C8_witness :
    pipelineForward 1 1 1 1 1 1 1 ⟨fun _ _ => 0, [], ⟨lnEps, 1, 0⟩⟩
        (fun _ _ => 0) none
      = pipelineForward 1 1 1 1 1 1 1 ⟨fun _ _ => 0, [], ⟨lnEps, 1, 0⟩⟩
        (fun _ _ => 0) none :=
  C8_pipeline_deterministic 1 1 1 1 1 1 1 _ _ _ _ _ rfl rfl

/-- The exponent bookkeeping of the positional table: multiplying a
position by `exp(e * (-log 10000 / d))` is dividing it by `10000^(e/d)`. -/
theorem posEnc_divterm_eq (pos : ℕ) (e d : ℝ) :
    (pos : ℝ) * Real.exp (e * (-(Real.log 10000) / d))
      = (pos : ℝ) / (10000 : ℝ) ^ (e / d) := by
  rw [Real.rpow_def_of_pos (by norm_num : (0:ℝ) < 10000), div_eq_mul_inv (pos : ℝ),
    ← Real.exp_neg]
  congr 1
  ring_nf

/-- Claim C2: for `2i < d_model` the table holds
`sin(pos / 10000^(2i/d_model))` at even feature `2i`, and for
`2i+1 < d_model` it holds `cos(pos / 10000^(2i/d_model))` at odd
feature `2i+1`; exact over the reals. -/
theorem C2_posEncTable_closed_form (d pos i : ℕ) :
    (2 * i < d →
      posEncTable d pos (2 * i)
        = Real.sin ((pos : ℝ) / (10000 : ℝ) ^ ((2 * (i : ℝ)) / (d : ℝ)))) ∧
    (2 * i + 1 < d →
      posEncTable d pos (2 * i + 1)
        = Real.cos ((pos : ℝ) / (10000 : ℝ) ^ ((2 * (i : ℝ)) / (d : ℝ)))) := by
  have hcast : ((2 * (2 * i / 2) : ℕ) : ℝ) = 2 * (i : ℝ) := by
    have h : 2 * (2 * i / 2) = 2 * i := by omega
    rw [h]; push_cast; ring
  have hcast' : ((2 * ((2 * i + 1) / 2) : ℕ) : ℝ) = 2 * (i : ℝ) := by
    have h : 2 * ((2 * i + 1) / 2) = 2 * i := by omega
    rw [h]; push_cast; ring
  constructor
  · intro _
    have hmod : (2 * i) % 2 = 0 := by omega
    simp only [posEncTable, hmod, if_pos, hcast]
    rw [posEnc_divterm_eq]
  · intro _
    have hmod : ¬((2 * i + 1) % 2 = 0) := by omega
    simp only [posEncTable, hmod, if_false, hcast']
    rw [posEnc_divterm_eq]

/-- Witness for C2 at `d_model = 2`, `pos = 1`, `i = 0`. -/
theorem C2_witness :
    posEncTable 2 1 0 = Real.sin 1 ∧ posEncTable 2 1 1 = Real.cos 1 := by
  have h1 := (C2_posEncTable_closed_form 2 1 0).1 (by norm_num)
  have h2 := (C2_posEncTable_closed_form 2 1 0).2 (by norm_num)
  norm_num at h1 h2
  exact ⟨h1, h2⟩

/-- Claim C10: over the reals the LayerNorm denominator `std + eps` is
strictly positive for every input (`std = sqrt(var) ≥ 0`, `eps = 1e-6`),
so the normalization never divides by zero; and a token whose features
are all equal maps to the `bias` scalar at every feature. -/
theorem C10_layerNorm_denominator_pos (n : ℕ) (x : Fin n → ℝ) (a b c : ℝ) :
    0 < stdLast n x + lnEps ∧
    (0 < n → (∀ j, x j = c) →
      ∀ j, layerNormForward ⟨lnEps, a, b⟩ n x j = b) := by
  constructor
  · have h := Real.sqrt_nonneg (varLast n x)
    unfold stdLast lnEps at *
    nlinarith
  · intro hn hc j
    have hn' : (n : ℝ) ≠ 0 := Nat.cast_ne_zero.2 hn.ne'
    have hm : meanLast n x = c := by
      simp only [meanLast, hc, Finset.sum_const, Finset.card_univ, Fintype.card_fin,
        nsmul_eq_mul]
      field_simp
    simp [layerNormForward, hm, hc j]

/-- Witness for C10 at the constant token `(5, 5)` with `bias = 3`. -/
theorem C10_witness :
    0 < stdLast 2 (fun _ => (5 : ℝ)) + lnEps ∧
    layerNormForward ⟨lnEps, 1, 3⟩ 2 (fun _ => (5 : ℝ)) 0 = 3 :=
  ⟨(C10_layerNorm_denominator_pos 2 (fun _ => (5 : ℝ)) 1 3 5).1,
    (C10_layerNorm_denominator_pos 2 (fun _ => (5 : ℝ)) 1 3 5).2 (by norm_num)
      (fun _ => rfl) 0⟩

/-- Claim C4: with dropout disabled, for every batch, head and query
row, the post-softmax attention weights are non-negative and sum to `1`
across key positions (exactly, over the reals). -/
theorem C4_attnWeights_sum_one (B H sq sk dk : ℕ)
    (Q : Fin B → Fin H → Fin sq → Fin dk → ℝ)
    (K : Fin B → Fin H → Fin sk → Fin dk → ℝ)
    (mask : Option (Fin sq → Fin sk → ℝ))
    (b : Fin B) (h : Fin H) (i : Fin sq) (hsk : 0 < sk) :
    (∀ j, 0 ≤ attnWeights B H sq sk dk Q K mask b h i j) ∧
    (∑ j, attnWeights B H sq sk dk Q K mask b h i j) = 1 := by
  haveI : Nonempty (Fin sk) := ⟨⟨0, hsk⟩⟩
  set s := maskedScores B H sq sk mask (rawScores B H sq sk dk Q K) b h i with hs
  have hD : 0 < ∑ j', Real.exp (s j') :=
    Finset.sum_pos (fun j' _ => Real.exp_pos _) Finset.univ_nonempty
  constructor
  · intro j
    exact div_nonneg (Real.exp_pos _).le hD.le
  · simp only [attnWeights, softmaxRow, ← hs]
    rw [← Finset.sum_div, div_self hD.ne']

/-- Witness for C4 with a single key position and zero projections. -/
theorem C4_witness :
    (∀ j, 0 ≤ attnWeights 1 1 1 1 1 (fun _ _ _ _ => 0) (fun _ _ _ _ => 0) none 0 0 0 j) ∧
    (∑ j, attnWeights 1 1 1 1 1 (fun _ _ _ _ => 0) (fun _ _ _ _ => 0) none 0 0 0 j) = 1 :=
  C4_attnWeights_sum_one 1 1 1 1 1 (fun _ _ _ _ => 0) (fun _ _ _ _ => 0) none 0 0 0
    (by norm_num)

/-- Claim C9: when a query row's mask entries are zero at every key
position, every score of that row becomes the same constant `-1e9`, the
softmax is the uniform distribution `1/seq_len_k`, and the attention
output for that row is the uniform average of the value vectors. -/
theorem C9_fully_masked_row_uniform (B H sq sk dk : ℕ)
    (Q : Fin B → Fin H → Fin sq → Fin dk → ℝ)
    (K V : Fin B → Fin H → Fin sk → Fin dk → ℝ)
    (m : Fin sq → Fin sk → ℝ) (b : Fin B) (h : Fin H) (i : Fin sq)
    (hm : ∀ j, m i j = 0) (hsk : 0 < sk) :
    (∀ j, maskedScores B H sq sk (some m) (rawScores B H sq sk dk Q K) b h i j
        = -1e9) ∧
    (∀ j, attnWeights B H sq sk dk Q K (some m) b h i j = 1 / sk) ∧
    (∀ c, attention B H sq sk dk Q K V (some m) b h i c = (∑ j, V b h j c) / sk) := by
  have hms : ∀ j, maskedScores B H sq sk (some m) (rawScores B H sq sk dk Q K) b h i j
      = -1e9 := by
    intro j
    simp [maskedScores, hm j]
  have hsk' : (sk : ℝ) ≠ 0 := Nat.cast_ne_zero.2 hsk.ne'
  have hw : ∀ j, attnWeights B H sq sk dk Q K (some m) b h i j = 1 / sk := by
    intro j
    simp only [attnWeights, softmaxRow, hms]
    rw [Finset.sum_const, Finset.card_univ, Fintype.card_fin, nsmul_eq_mul,
      mul_comm, div_mul_eq_div_div, div_self (Real.exp_ne_zero _)]
  refine ⟨hms, hw, ?_⟩
  intro c
  simp only [attention, hw, one_div, inv_mul_eq_div]
  rw [← Finset.sum_div]

/-- Witness for C9: one key position, all-zero mask row. -/
theorem C9_witness :
    (∀ j, attnWeights 1 1 1 1 1 (fun _ _ _ _ => 0) (fun _ _ _ _ => 0)
        (some (fun _ _ => 0)) 0 0 0 j = 1 / (1 : ℕ)) ∧
    (∀ c, attention 1 1 1 1 1 (fun _ _ _ _ => 0) (fun _ _ _ _ => 0)
        (fun _ _ _ _ => 2) (some (fun _ _ => 0)) 0 0 0 c
      = (∑ _j : Fin 1, (2 : ℝ)) / (1 : ℕ)) :=
  ⟨(C9_fully_masked_row_uniform 1 1 1 1 1 (fun _ _ _ _ => 0) (fun _ _ _ _ => 0)
      (fun _ _ _ _ => 2) (fun _ _ => 0) 0 0 0 (fun _ => rfl) (by norm_num)).2.1,
   (C9_fully_masked_row_uniform 1 1 1 1 1 (fun _ _ _ _ => 0) (fun _ _ _ _ => 0)
      (fun _ _ _ _ => 2) (fun _ _ => 0) 0 0 0 (fun _ => rfl) (by norm_num)).2.2⟩

/-- Claim C3, counterexample: the `-1e9` fill is only a finite stand-in
for `-∞`.  With one query, two keys, `d_k = 1`, key 0 masked and the
unmasked key's score equal to `-3e9` (below the fill value), the masked
weight is *larger* than the unmasked one, so it is not below `1e-6`
relative to it. -/
theorem C3_counterexample :
    ¬ (attnWeights 1 1 1 2 1 (fun _ _ _ _ => 1)
        (fun _ _ jj _ => if (jj : ℕ) = 0 then (0 : ℝ) else -3e9)
        (some (fun _ kk => if (kk : ℕ) = 0 then (0 : ℝ) else 1)) 0 0 0 0
      < 1e-6 * attnWeights 1 1 1 2 1 (fun _ _ _ _ => 1)
        (fun _ _ jj _ => if (jj : ℕ) = 0 then (0 : ℝ) else -3e9)
        (some (fun _ kk => if (kk : ℕ) = 0 then (0 : ℝ) else 1)) 0 0 0 1) := by
  have hsqrt : Real.sqrt ((1 : ℕ) : ℝ) = 1 := by
    rw [Nat.cast_one, Real.sqrt_one]
  simp only [attnWeights, softmaxRow, maskedScores, rawScores, Fin.sum_univ_two,
    Fin.sum_univ_one, Fin.val_zero, Fin.val_one, hsqrt]
  norm_num
  have hD : (0 : ℝ) < Real.exp (-1000000000) + Real.exp (-3000000000) := by positivity
  have hle : Real.exp (-3000000000 : ℝ) ≤ Real.exp (-1000000000 : ℝ) :=
    Real.exp_le_exp.2 (by norm_num)
  calc 1 / 1000000 *
        (Real.exp (-3000000000) / (Real.exp (-1000000000) + Real.exp (-3000000000)))
      ≤ 1 * (Real.exp (-3000000000) / (Real.exp (-1000000000) + Real.exp (-3000000000))) :=
        mul_le_mul_of_nonneg_right (by norm_num) (by positivity)
    _ = Real.exp (-3000000000) / (Real.exp (-1000000000) + Real.exp (-3000000000)) :=
        one_mul _
    _ ≤ Real.exp (-1000000000) / (Real.exp (-1000000000) + Real.exp (-3000000000)) :=
        (div_le_div_iff_of_pos_right hD).2 hle

/-- Claim C3 (amended): with a mask, every zero-mask score is replaced
by `-1e9` before the softmax, and the weight a query gives a masked key
is below `1e-6` relative to any unmasked key whose (scaled) score is at
least `-1e8` — a bound comfortably holding for any realistic scores, but
necessary because the finite fill `-1e9` can be dominated by even more
negative unmasked scores. -/
theorem C3_masked_weight_small (B H sq sk dk : ℕ)
    (Q : Fin B → Fin H → Fin sq → Fin dk → ℝ)
    (K : Fin B → Fin H → Fin sk → Fin dk → ℝ)
    (m : Fin sq → Fin sk → ℝ) (b : Fin B) (h : Fin H) (i : Fin sq)
    (j j' : Fin sk) (h0 : m i j = 0) (h1 : m i j' ≠ 0)
    (hb : -1e8 ≤ rawScores B H sq sk dk Q K b h i j') :
    maskedScores B H sq sk (some m) (rawScores B H sq sk dk Q K) b h i j = -1e9 ∧
    attnWeights B H sq sk dk Q K (some m) b h i j
      < 1e-6 * attnWeights B H sq sk dk Q K (some m) b h i j' := by
  have hmj : maskedScores B H sq sk (some m) (rawScores B H sq sk dk Q K) b h i j
      = -1e9 := by simp [maskedScores, h0]
  have hmj' : maskedScores B H sq sk (some m) (rawScores B H sq sk dk Q K) b h i j'
      = rawScores B H sq sk dk Q K b h i j' := by simp [maskedScores, h1]
  refine ⟨hmj, ?_⟩
  haveI : Nonempty (Fin sk) := ⟨j⟩
  have hD : 0 < ∑ x, Real.exp
      (maskedScores B H sq sk (some m) (rawScores B H sq sk dk Q K) b h i x) :=
    Finset.sum_pos (fun _ _ => Real.exp_pos _) Finset.univ_nonempty
  simp only [attnWeights, softmaxRow]
  rw [hmj, hmj', ← mul_div_assoc]
  apply (div_lt_div_iff_of_pos_right hD).2
  have hexp : Real.exp (-1e8 : ℝ) ≤ Real.exp (rawScores B H sq sk dk Q K b h i j') :=
    Real.exp_le_exp.2 hb
  have h9 : (1e6 : ℝ) < Real.exp (9e8 : ℝ) := by
    nlinarith [Real.add_one_le_exp (9e8 : ℝ)]
  have hsplit : Real.exp (-1e9 : ℝ) = Real.exp (-1e8 : ℝ) / Real.exp (9e8 : ℝ) := by
    rw [← Real.exp_sub]; norm_num
  have hinv : (Real.exp (9e8 : ℝ))⁻¹ < 1e-6 := by
    calc (Real.exp (9e8 : ℝ))⁻¹ < ((1e6 : ℝ))⁻¹ := inv_strictAnti₀ (by norm_num) h9
      _ = 1e-6 := by norm_num
  calc Real.exp (-1e9 : ℝ)
      = Real.exp (-1e8) * (Real.exp (9e8))⁻¹ := by rw [hsplit, div_eq_mul_inv]
    _ < Real.exp (-1e8) * 1e-6 := mul_lt_mul_of_pos_left hinv (Real.exp_pos _)
    _ ≤ Real.exp (rawScores B H sq sk dk Q K b h i j') * 1e-6 :=
        mul_le_mul_of_nonneg_right hexp (by norm_num)
    _ = 1e-6 * Real.exp (rawScores B H sq sk dk Q K b h i j') := mul_comm _ _

/-- Witness for C3 with zero projections: key 0 masked, key 1 unmasked,
all raw scores `0 ≥ -1e8`. -/
theorem C3_witness :
    maskedScores 1 1 1 2 (some (fun _ kk => if (kk : ℕ) = 0 then (0 : ℝ) else 1))
        (rawScores 1 1 1 2 1 (fun _ _ _ _ => 0) (fun _ _ _ _ => 0)) 0 0 0 0 = -1e9 ∧
    attnWeights 1 1 1 2 1 (fun _ _ _ _ => 0) (fun _ _ _ _ => 0)
        (some (fun _ kk => if (kk : ℕ) = 0 then (0 : ℝ) else 1)) 0 0 0 0
      < 1e-6 * attnWeights 1 1 1 2 1 (fun _ _ _ _ => 0) (fun _ _ _ _ => 0)
        (some (fun _ kk => if (kk : ℕ) = 0 then (0 : ℝ) else 1)) 0 0 0 1 :=
  C3_masked_weight_small 1 1 1 2 1 (fun _ _ _ _ => 0) (fun _ _ _ _ => 0)
    (fun _ kk => if (kk : ℕ) = 0 then (0 : ℝ) else 1) 0 0 0 0 1
    (by norm_num) (by norm_num)
    (by norm_num [rawScores])

/-- Claim C1, counterexample: at the token `(0, 2)` the code's
normalization (Bessel-corrected `torch.Tensor.std`, denominator
`sqrt 2 + eps`) differs from the claimed biased-standard-deviation
formula (denominator `1 + eps`): with `alpha = 1`, `bias = 0` the outputs
at feature 1 are `1/(sqrt 2 + 1e-6)` versus `1/(1 + 1e-6)`. -/
theorem C1_counterexample :
    layerNormForward ⟨lnEps, 1, 0⟩ 2 ![(0 : ℝ), 2] 1
      ≠ layerNormSpecForward ⟨lnEps, 1, 0⟩ 2 ![(0 : ℝ), 2] 1 := by
  have hm : meanLast 2 ![(0 : ℝ), 2] = 1 := by
    simp [meanLast, Fin.sum_univ_two]
  have hstd : stdLast 2 ![(0 : ℝ), 2] = Real.sqrt 2 := by
    simp only [stdLast, varLast, hm, Fin.sum_univ_two]
    norm_num
  have hbiased : stdBiasedSpec 2 ![(0 : ℝ), 2] = 1 := by
    simp only [stdBiasedSpec, hm, Fin.sum_univ_two]
    norm_num
  have hsq : 1 < Real.sqrt 2 := by
    rw [show (1 : ℝ) = Real.sqrt 1 by rw [Real.sqrt_one]]
    exact Real.sqrt_lt_sqrt (by norm_num) (by norm_num)
  have hpos : (0 : ℝ) < Real.sqrt 2 + 1e-6 := by positivity
  intro h
  simp only [layerNormForward, layerNormSpecForward, hm, hstd, hbiased, lnEps] at h
  norm_num at h
  have h2 : Real.sqrt 2 = 1 := by
    field_simp at h
    linarith
  linarith

/-- Claim C1 (amended): `LayerNorm` returns
`alpha * (x - mean) / (std + eps) + bias` where `std` is the *unbiased*
(Bessel-corrected, `n-1` denominator) standard deviation and `alpha`,
`bias` are single scalars; the pre-affine output has per-token mean
exactly `0`, and its Bessel-corrected variance equals
`(std / (std + eps))^2` — approximately `1` whenever `std` dominates
`eps`. -/
theorem C1_layerNorm_unbiased (n : ℕ) (x : Fin n → ℝ) (a b : ℝ) (hn : 0 < n) :
    (∀ j, layerNormForward ⟨lnEps, a, b⟩ n x j
        = a * ((x j - meanLast n x) / (stdLast n x + lnEps)) + b) ∧
    meanLast n (fun j => (x j - meanLast n x) / (stdLast n x + lnEps)) = 0 ∧
    varLast n (fun j => (x j - meanLast n x) / (stdLast n x + lnEps))
        = (stdLast n x / (stdLast n x + lnEps)) ^ 2 := by
  have hn' : (n : ℝ) ≠ 0 := Nat.cast_ne_zero.2 hn.ne'
  have hsum : ∑ j, (x j - meanLast n x) = 0 := by
    rw [Finset.sum_sub_distrib, Finset.sum_const, Finset.card_univ, Fintype.card_fin,
      nsmul_eq_mul, meanLast, mul_div_cancel₀ _ hn', sub_self]
  have hmean : meanLast n (fun j => (x j - meanLast n x) / (stdLast n x + lnEps)) = 0 := by
    rw [meanLast, ← Finset.sum_div, hsum, zero_div, zero_div]
  refine ⟨fun j => by simp [layerNormForward, mul_div_assoc], hmean, ?_⟩
  have hvar_nonneg : 0 ≤ varLast n x := by
    apply div_nonneg (Finset.sum_nonneg fun _ _ => sq_nonneg _)
    have : (1 : ℝ) ≤ n := by exact_mod_cast hn
    linarith
  have hsq : stdLast n x ^ 2 = varLast n x := Real.sq_sqrt hvar_nonneg
  simp only [varLast, hmean, sub_zero, div_pow]
  rw [← Finset.sum_div, div_right_comm, hsq]
  simp only [varLast]

/-- Witness for C1 at the token `(0, 2)`: mean of the pre-affine output
is `0` and its Bessel variance is `(sqrt 2 / (sqrt 2 + eps))^2`. -/
theorem C1_witness :
    meanLast 2 (fun j => ((![(0 : ℝ), 2]) j - meanLast 2 ![(0 : ℝ), 2])
        / (stdLast 2 ![(0 : ℝ), 2] + lnEps)) = 0 ∧
    varLast 2 (fun j => ((![(0 : ℝ), 2]) j - meanLast 2 ![(0 : ℝ), 2])
        / (stdLast 2 ![(0 : ℝ), 2] + lnEps))
      = (stdLast 2 ![(0 : ℝ), 2] / (stdLast 2 ![(0 : ℝ), 2] + lnEps)) ^ 2 :=
  ⟨(C1_layerNorm_unbiased 2 ![(0 : ℝ), 2] 1 0 (by norm_num)).2.1,
   (C1_layerNorm_unbiased 2 ![(0 : ℝ), 2] 1 0 (by norm_num)).2.2⟩

/-- Claim C6, counterexample: with `max_seq_len = 1` and `seq_len = 2 >
1`, `PositionalEncoding.forward` does not fail: the slice keeps the
table's single row, which broadcasts over both positions, so the call
succeeds (adding row 0 everywhere) instead of raising a shape error. -/
theorem C6_counterexample :
    peForward 1 1 1 2 (fun _ _ _ => (0 : ℝ))
      = Except.ok (fun (_ : Fin 1) (_ : Fin 2) (j : Fin 1) => (0 : ℝ) + posEncTable 1 0 j) :=
  rfl

/-- Claim C6 (amended): `PositionalEncoding.forward` performs no eager
bound check; the Python slice truncates silently and failure, when it
happens, is the broadcast error of the subsequent addition.  For
`seq_len ≤ max_seq_len` the call adds the first `seq_len` table rows;
for `seq_len > max_seq_len` it fails — except when `max_seq_len = 1`,
where the one-row table broadcasts and the call succeeds, adding row 0
to every position. -/
theorem C6_pe_broadcast (d maxLen B S : ℕ) (x : Fin B → Fin S → Fin d → ℝ) :
    (S ≤ maxLen → peForward d maxLen B S x
        = Except.ok (fun b p j => x b p j + posEncTable d p j)) ∧
    (maxLen < S → maxLen ≠ 1 →
        peForward d maxLen B S x = Except.error
          "RuntimeError: the size of tensor a must match the size of tensor b") ∧
    (maxLen = 1 → 1 ≤ S → peForward d maxLen B S x
        = Except.ok (fun b p j => x b p j + posEncTable d 0 j)) := by
  refine ⟨?_, ?_, ?_⟩
  · intro hS
    have hmin : min S maxLen = S := Nat.min_eq_left hS
    rw [peForward, if_pos (show peBroadcastOk maxLen S from Or.inl hmin)]
    congr 1
    funext b p j
    rw [hmin]
    by_cases h1 : S = 1
    · subst h1
      rw [if_pos rfl]
      have hp : (p : ℕ) = 0 := by omega
      rw [hp]
    · rw [if_neg h1]
  · intro h1 h2
    have hmin : min S maxLen = maxLen := Nat.min_eq_right (Nat.le_of_lt h1)
    rw [peForward, if_neg]
    simp only [peBroadcastOk, hmin]
    push_neg
    exact ⟨by omega, h2⟩
  · intro h1 hS
    subst h1
    have hmin : min S 1 = 1 := by omega
    rw [peForward, if_pos (show peBroadcastOk 1 S from Or.inr hmin)]
    congr 1
    funext b p j
    rw [if_pos hmin]

/-- Witness for C6: `seq_len = 1 ≤ max_seq_len = 2` succeeds and adds
the matching table rows. -/
theorem C6_witness :
    peForward 1 2 1 1 (fun _ _ _ => (0 : ℝ))
      = Except.ok (fun (_ : Fin 1) (p : Fin 1) (j : Fin 1) =>
          (0 : ℝ) + posEncTable 1 (p : ℕ) j) :=
  (C6_pe_broadcast 1 2 1 1 (fun _ _ _ => 0)).1 (by norm_num)

end Transformer
